import Mathlib

/-!
Verification development for the daily agent-report reconciliation engine
(`reporter_generator.py`).  The pandas pipeline is shallowly embedded:
tables become lists of rows, cells become `Option` values, currency and
metric amounts become rationals, calendar days become integer day numbers,
and the source's formulas and control flow are translated function by
function.  Where the source leans on library behaviour (`float()`,
`pd.to_datetime`, regular expressions), the embedding models that
behaviour explicitly on the input shapes the program feeds it.
-/

/-! ## Text normalizer (reporter_generator.py lines 514-556, 648-700) -/

/-- Embeds `to_half_width`: maps full-width digits U+FF10..U+FF19 to ASCII
digits, identity on every other character. -/
def to_half_width (s : String) : String :=
  String.mk (s.toList.map (fun c =>
    if '０' ≤ c ∧ c ≤ '９' then Char.ofNat (c.toNat - 0xFEE0) else c))

/-- Value of a digit string read in base 10 (helper for the `float()` model). -/
def digits_to_nat (cs : List Char) : ℕ :=
  cs.foldl (fun a c => a * 10 + (c.toNat - '0'.toNat)) 0

/-- Strips leading and trailing whitespace from a character list (the model
of Python's `str.strip`). -/
def trimChars (l : List Char) : List Char :=
  ((l.dropWhile Char.isWhitespace).reverse.dropWhile Char.isWhitespace).reverse

/-- Decomposition produced by Python's `float(s)` on the literal shapes the
program feeds it (an optional sign, digits with at most one decimal
point — the shapes producible by the regex class `[-\d.]` and numeric CSV
cells; exponent forms never arise there).  Returns the sign, the integer
part, the fractional digits and their count, or `none` where `float`
raises `ValueError`. -/
def parse_float_parts (l : List Char) : Option (Bool × ℕ × ℕ × ℕ) :=
  let cs0 := trimChars l
  let signed : Bool × List Char :=
    match cs0 with
    | '-' :: rest => (true, rest)
    | '+' :: rest => (false, rest)
    | _ => (false, cs0)
  let cs := signed.2
  if cs.all (fun c => c.isDigit || c == '.') && cs.any (fun c => c.isDigit) &&
      cs.count '.' ≤ 1 then
    let ip := cs.takeWhile (fun c => c ≠ '.')
    let fp := (cs.dropWhile (fun c => c ≠ '.')).drop 1
    some (signed.1, digits_to_nat ip, digits_to_nat fp, fp.length)
  else none

/-- Rational value of a `parse_float_parts` decomposition. -/
def parts_to_rat (p : Bool × ℕ × ℕ × ℕ) : ℚ :=
  let v : ℚ := (p.2.1 : ℚ) + (p.2.2.1 : ℚ) / (10 : ℚ) ^ p.2.2.2
  if p.1 then -v else v

/-- Embeds Python's `float(s)` as a partial rational value. -/
def parse_float_chars (l : List Char) : Option ℚ :=
  (parse_float_parts l).map parts_to_rat

/-- Character class of the regex group `[-\d.]` used by
`extract_retention_rate`. -/
def retGroupChar (c : Char) : Bool :=
  c.isDigit || c == '-' || c == '.'

/-- Embeds `re.search` of the pattern matching a parenthesised percentage:
leftmost ASCII parenthesis enclosing a non-empty `[-\d.]+` run followed by
a percent sign and the closing parenthesis; returns the captured group. -/
def findParenPct : List Char → Option (List Char)
  | [] => none
  | c :: rest =>
    if c = '(' then
      let grp := rest.takeWhile retGroupChar
      if grp ≠ [] ∧ (rest.drop grp.length).take 2 = ['%', ')'] then some grp
      else findParenPct rest
    else findParenPct rest

/-- Body of `extract_retention_rate` after the initial `str(x).strip()`
(the argument is the stripped character sequence): a parenthesised
percentage is taken first, then a direct percentage, then a bare number
(scaled by 100 when at most 1), else 0. -/
def extractRetChars (t : List Char) : ℚ :=
  if t.isEmpty then 0
  else
    match findParenPct t with
    | some grp => (parse_float_chars grp).getD 0
    | none =>
      if t.contains '%' then
        (parse_float_chars (t.filter (fun c => c ≠ '%'))).getD 0
      else
        match parse_float_chars t with
        | some v => if v ≤ 1 then v * 100 else v
        | none => 0

/-- Embeds `extract_retention_rate` (lines 671-700): blank input yields 0,
otherwise the stripped string is examined by `extractRetChars`. -/
def extract_retention_rate (s : String) : ℚ :=
  extractRetChars (trimChars s.toList)

/-- Embeds the tail-parenthesis removal of one `TAIL_PATTERNS` entry,
matching a parenthesised digit run followed only by whitespace at the end
of the string and removing it. -/
def remove_tail_paren (opc clc : Char) (l : List Char) : List Char :=
  let r := l.reverse
  let r1 := r.dropWhile Char.isWhitespace
  match r1 with
  | c :: rest =>
    if c = clc then
      let ds := rest.takeWhile Char.isDigit
      match rest.drop ds.length with
      | o :: remain => if o = opc ∧ ds ≠ [] then remain.reverse else l
      | [] => l
    else l
  | [] => l

/-- Embeds `strip_tail_parenthesis` (lines 543-549): half-width fold,
strip, then each tail pattern (ASCII and full-width parentheses) removed
with a strip after each. -/
def strip_tail_parenthesis (name : String) : String :=
  let s0 := trimChars (to_half_width name).toList
  let s1 := trimChars (remove_tail_paren '(' ')' s0)
  let s2 := trimChars (remove_tail_paren '（' '）' s1)
  String.mk s2

/-- Lifts `strip_tail_parenthesis` to a nullable cell: the source maps it
over a Series where a null cell (not a `str`) yields the empty string. -/
def strip_tail_parenthesis_opt (v : Option String) : String :=
  match v with
  | none => ""
  | some s => strip_tail_parenthesis s

/-! ## Raw tables and the column resolver (lines 120-162, 558-568) -/

/-- A row of a raw table: literal header to cell value, `none` where the
loader produced a null. -/
abbrev Row := List (String × Option String)

/-- A raw input table as handed to a standardizer. -/
structure Table where
  header : List String
  rows : List Row
deriving DecidableEq

/-- Embeds `df.empty`: true when either axis has length 0. -/
def Table.isEmptyDf (t : Table) : Bool := t.rows.isEmpty || t.header.isEmpty

/-- Cell access `df[col]` within one row. -/
def getCell (r : Row) (c : String) : Option String :=
  match r.find? (fun p => p.1 == c) with
  | some p => p.2
  | none => none

/-- Embeds Python's `str.lower()` character by character. -/
def lowerStr (s : String) : String := String.mk (s.toList.map Char.toLower)

/-- Embeds `pick_col`: first alias present verbatim among the headers; if
none, a case-insensitive retry that returns the matching literal header
(the source builds `{c.lower(): c}` over the headers, so a later duplicate
lowercase header wins — hence the reversed scan). -/
def pick_col (t : Table) (aliasList : List String) : Option String :=
  match aliasList.find? (fun a => t.header.contains a) with
  | some a => some a
  | none =>
    match aliasList.find? (fun a => t.header.any (fun h => lowerStr h == lowerStr a)) with
    | some a => t.header.reverse.find? (fun h => lowerStr h == lowerStr a)
    | none => none

/-- The `ALIASES["date"]` list. -/
def aliases_date : List String := ["日期", "时间", "date", "统计日期", "dt"]

/-- The `ALIASES["channel"]` list. -/
def aliases_channel : List String :=
  ["渠道名称", "总代名称", "渠道", "channel", "agent_name", "渠道名", "agent",
   "channel_name", "代理名称"]

/-- The `ALIASES["platform"]` list. -/
def aliases_platform : List String := ["盘口", "平台", "platform", "game_platform"]

/-- Substring test on character lists (Python's `in` on strings). -/
def hasSubstrChars (pat : List Char) : List Char → Bool
  | [] => pat.isEmpty
  | c :: rest => pat.isPrefixOf (c :: rest) || hasSubstrChars pat rest

/-- Accepts a date literal of the shape the pipeline's files carry
(ISO `YYYY-MM-DD`); models the successful path of `pd.to_datetime`
followed by `normalize().strftime`, which round-trips such a literal. -/
def parse_iso_date (s : String) : Option String :=
  match s.toList with
  | [y1, y2, y3, y4, '-', m1, m2, '-', d1, d2] =>
    if [y1, y2, y3, y4, m1, m2, d1, d2].all Char.isDigit then some s else none
  | _ => none

/-- Embeds `normalize_date` (lines 519-529): nulls, blanks and the
`数据汇总` sentinel give `none`; otherwise the half-width-folded, stripped
text is parsed as a calendar date. -/
def normalize_date (v : Option String) : Option String :=
  match v with
  | none => none
  | some raw =>
    if (trimChars raw.toList).isEmpty then none
    else
      let cs := trimChars (to_half_width raw).toList
      if hasSubstrChars "数据汇总".toList cs then none
      else parse_iso_date (String.mk cs)

/-! ## Per-source standardizers (lines 914-1284), restricted to the date
and channel key columns that decide the missing-column control flow; the
metric-column projections are orthogonal to that control flow and are
elided from the row payloads. -/

/-- A standardized agent/ops row: normalized date, raw channel name,
cleaned channel name. -/
structure AgentStdRow where
  date : String
  name : Option String
  nameClean : String
deriving DecidableEq

/-- Embeds `std_agent` (lines 940-1040): an empty frame yields an empty
result; a frame without a channel column yields an empty result; otherwise
`out["日期"] = df[c_date].map(normalize_date)` is evaluated, which raises
`KeyError` when no date column resolved (`df[None]`); surviving rows are
those with a parseable date (`dropna` on the date and cleaned-name
columns, the cleaned name never being null). -/
def std_agent (df : Table) : Except String (List AgentStdRow) :=
  if df.isEmptyDf then .ok []
  else
    let c_date := pick_col df aliases_date
    match pick_col df aliases_channel with
    | none => .ok []
    | some cch =>
      match c_date with
      | none => .error "KeyError: None"
      | some cd =>
        .ok (df.rows.filterMap (fun r =>
          match normalize_date (getCell r cd) with
          | none => none
          | some d => some ⟨d, getCell r cch, strip_tail_parenthesis_opt (getCell r cch)⟩))

/-- Embeds `std_ops` (lines 914-938): no empty-frame guard; a frame
without a channel column yields an empty result; a missing date column
raises as in `std_agent`; `dropna` keeps rows with a parseable date and a
non-null channel name. -/
def std_ops (df : Table) : Except String (List AgentStdRow) :=
  let c_date := pick_col df aliases_date
  match pick_col df aliases_channel with
  | none => .ok []
  | some cch =>
    match c_date with
    | none => .error "KeyError: None"
    | some cd =>
      .ok (df.rows.filterMap (fun r =>
        match normalize_date (getCell r cd), getCell r cch with
        | some d, some ch => some ⟨d, some ch, strip_tail_parenthesis ch⟩
        | _, _ => none))

/-- Embeds `std_retention` (lines 1128-1198): empty frame or missing date
column yields an empty result (the v2.1 guard); rows are filtered to the
`裂变类型 = 全部` segment when that column exists; the payload here is the
normalized date column after `dropna`. -/
def std_retention (df : Table) : Except String (List String) :=
  if df.isEmptyDf then .ok []
  else
    match pick_col df aliases_date with
    | none => .ok []
    | some cd =>
      let base :=
        if df.header.contains "裂变类型" then
          df.rows.filter (fun r => getCell r "裂变类型" == some "全部")
        else df.rows
      .ok (base.filterMap (fun r => normalize_date (getCell r cd)))

/-- Embeds `std_fpltv` (lines 1200-1260): empty frame yields an empty
result, but a missing date column is not guarded — `out["日期"] =
df[c_date]` raises `KeyError`. -/
def std_fpltv (df : Table) : Except String (List String) :=
  if df.isEmptyDf then .ok []
  else
    match pick_col df aliases_date with
    | none => .error "KeyError: None"
    | some cd =>
      .ok (df.rows.filterMap (fun r => normalize_date (getCell r cd)))

/-- Embeds `std_cost` (lines 1262-1284): a missing date column yields an
empty result (the V3.5.4 guard); no empty-frame guard. -/
def std_cost (df : Table) : Except String (List String) :=
  match pick_col df aliases_date with
  | none => .ok []
  | some cd =>
    .ok (df.rows.filterMap (fun r => normalize_date (getCell r cd)))

/-- Embeds `std_daily` (lines 1060-1087): empty frame yields an empty
result; a missing date column raises (`df[c_date]` with `c_date = None`);
the channel column is optional and does not gate the result. -/
def std_daily (df : Table) : Except String (List String) :=
  if df.isEmptyDf then .ok []
  else
    match pick_col df aliases_date with
    | none => .error "KeyError: None"
    | some cd =>
      .ok (df.rows.filterMap (fun r => normalize_date (getCell r cd)))

/-- Embeds `std_platform` (lines 1042-1058): empty frame yields an empty
result; missing date or platform column raises; `dropna` keeps rows with
a parseable date and a non-null platform. -/
def std_platform (df : Table) : Except String (List (String × String)) :=
  if df.isEmptyDf then .ok []
  else
    match pick_col df aliases_date with
    | none => .error "KeyError: None"
    | some cd =>
      match pick_col df aliases_platform with
      | none => .error "KeyError: None"
      | some cp =>
        .ok (df.rows.filterMap (fun r =>
          match normalize_date (getCell r cd), getCell r cp with
          | some d, some pl => some (d, pl)
          | _, _ => none))

/-! ## Best-file selector (`select_best_file_by_date_range`, lines 704-767) -/

/-- Observable content of one candidate file: the parsed entries of its
date column (after `dropna`) and its row count. -/
structure FileData where
  dates : List Int
  rowCount : ℕ
deriving DecidableEq

/-- One candidate file.  `read = none` models the cases the loop skips:
the read raising, an empty frame, or no resolvable date column. -/
structure Candidate where
  path : ℕ
  read : Option FileData
deriving DecidableEq

/-- Score tuple `(date span in days, max date, row count)` of a candidate;
`none` when the candidate is skipped (unreadable, no date column, or no
parseable dates). -/
def candScore (c : Candidate) : Option (Int × Int × ℕ) :=
  match c.read with
  | none => none
  | some fd =>
    match fd.dates.max?, fd.dates.min? with
    | some mx, some mn => some (mx - mn, mx, fd.rowCount)
    | _, _ => none

/-- Python's lexicographic `>` on the score tuples. -/
def scoreGt (a b : Int × Int × ℕ) : Bool :=
  decide (a.1 > b.1) ||
    (decide (a.1 = b.1) &&
      (decide (a.2.1 > b.2.1) || (decide (a.2.1 = b.2.1) && decide (a.2.2 > b.2.2))))

/-- The selection loop: the running best is replaced exactly when a
candidate's score strictly exceeds it (the initial sentinel
`(-1, None, -1)` is beaten by every real score, since a date span is
never negative — modelled by the `none` accumulator). -/
def selectLoop :
    List Candidate → Option ((Int × Int × ℕ) × Candidate) →
      Option ((Int × Int × ℕ) × Candidate)
  | [], acc => acc
  | f :: rest, acc =>
    match candScore f with
    | none => selectLoop rest acc
    | some s =>
      match acc with
      | none => selectLoop rest (some (s, f))
      | some (bs, bf) =>
        if scoreGt s bs then selectLoop rest (some (s, f))
        else selectLoop rest (some (bs, bf))

/-- Embeds `select_best_file_by_date_range`: no candidate gives `none`; a
single candidate is returned unconditionally (the `len(file_paths) == 1`
shortcut, before any read or scoring); otherwise the loop ranks the
scorable candidates. -/
def select_best_file_by_date_range (files : List Candidate) : Option Candidate :=
  match files with
  | [] => none
  | [f] => some f
  | _ => (selectLoop files none).map (fun p => p.2)

/-! ## Final aggregation (main, lines 2387-2526) -/

/-- A merged row entering the final `groupby`: the three grouping keys,
representative numeric columns (a money column and an `Int64` count
column — every numeric column is aggregated the same way, by `'sum'`),
and a representative text column (aggregated by `safe_first`). -/
structure MRow where
  date : ℕ
  platform : String
  agentId : Int
  amount : ℚ
  cnt : Int
  text : Option String
deriving DecidableEq

/-- The grouping key `[日期, 盘口, 总代号]`. -/
def rowKey (r : MRow) : ℕ × String × Int := (r.date, r.platform, r.agentId)

/-- Embeds `safe_first`: the first non-null value of the column within the
group (`dropna` then the first element; with flattening already done the
cells are scalars, and an all-null group yields null). -/
def safe_first (cells : List (Option String)) : Option String :=
  (cells.filterMap id).head?

/-- The aggregated output row of one group: numeric columns summed, the
text column reduced by `safe_first`. -/
def aggGroup (k : ℕ × String × Int) (rows : List MRow) : MRow :=
  ⟨k.1, k.2.1, k.2.2,
    (rows.map (fun r => r.amount)).sum,
    (rows.map (fun r => r.cnt)).sum,
    safe_first (rows.map (fun r => r.text))⟩

/-- Embeds `main.groupby(group_cols, as_index=False).agg(agg_dict)`: one
output row per distinct grouping key, in order of first appearance. -/
def final_group_agg (rows : List MRow) : List MRow :=
  ((rows.map rowKey).dedup).map
    (fun k => aggGroup k (rows.filter (fun r => rowKey r == k)))

/-! ## Identity supplementation (main, lines 1798-1871) -/

/-- A deduplicated agent-report row, as relevant to the identity universe
and the name map (its `总代号` is non-null after the stable-id fill). -/
structure AgentRow where
  date : ℕ
  agentId : Int
  name : String
  nameClean : String
deriving DecidableEq

/-- One row of the identity-key universe (`base_keys`). -/
structure IdRow where
  date : ℕ
  platform : String
  agentId : Int
  name : Option String
  nameClean : Option String
  promoMethod : Option String
deriving DecidableEq

/-- The key triple of a retention/first-pay-LTV standardized row used by
the supplementary pass. -/
structure SrcKeyRow where
  date : ℕ
  platform : String
  agentId : Int
deriving DecidableEq

/-- Embeds `drop_duplicates("总代号")` (keep the first row per id), with an
accumulator of the ids already seen. -/
def dedup_keep_first_aux (seen : List Int) :
    List (Int × String × String) → List (Int × String × String)
  | [] => []
  | p :: rest =>
    if seen.contains p.1 then dedup_keep_first_aux seen rest
    else p :: dedup_keep_first_aux (p.1 :: seen) rest

/-- Embeds `drop_duplicates("总代号")`: keeps the first row per id. -/
def dedup_keep_first (l : List (Int × String × String)) :
    List (Int × String × String) :=
  dedup_keep_first_aux [] l

/-- Embeds line 1823: the id-to-name table
`agent[["总代号","总代名称","总代名称_清洗"]].dropna(...).drop_duplicates("总代号")`,
built from whatever `agent` frame is in scope at that point. -/
def agent_name_map (agent : List AgentRow) : List (Int × String × String) :=
  dedup_keep_first (agent.map (fun r => (r.agentId, r.name, r.nameClean)))

/-- Lookup in the id-to-name table (the `merge(agent_name_map, on="总代号",
how="left")` of line 1856, the right side being unique per id). -/
def name_lookup (nm : List (Int × String × String)) (id : Int) :
    Option (String × String) :=
  (nm.find? (fun p => p.1 == id)).map (fun p => p.2)

/-- Embeds one round of the supplement loop (lines 1832-1866) for one
source: the source's distinct `[日期, 盘口, 总代号]` triples (the source
frames were already restricted to the selected date upstream, modelled by
the filter), anti-joined against the current `base_keys`, the names
backfilled from the id-to-name table, `推广方式` left unset, and the new
rows appended. -/
def supplement_one (selectedDate : ℕ) (nm : List (Int × String × String))
    (base : List IdRow) (src : List SrcKeyRow) : List IdRow :=
  let srcBase := src.filter (fun r => r.date == selectedDate)
  let srcKeys := (srcBase.map (fun r => (r.date, r.platform, r.agentId))).dedup
  let baseKeys := base.map (fun r => (r.date, r.platform, r.agentId))
  let newKeys := srcKeys.filter (fun k => !(baseKeys.contains k))
  base ++ newKeys.map (fun k =>
    { date := k.1, platform := k.2.1, agentId := k.2.2,
      name := (name_lookup nm k.2.2).map (fun p => p.1),
      nameClean := (name_lookup nm k.2.2).map (fun p => p.2),
      promoMethod := none })

/-- Embeds the whole supplementary pass: by line 1634 the `agent` frame
has already been filtered to the selected date, and line 1823 builds the
name map from that filtered frame; the four sources are folded in the
source order login, play, first-pay, first-pay-LTV. -/
def supplement_identity_universe (selectedDate : ℕ) (agentAll : List AgentRow)
    (base : List IdRow) (retLogin retPlay retFpay fpltv : List SrcKeyRow) :
    List IdRow :=
  let agentFiltered := agentAll.filter (fun r => r.date == selectedDate)
  let nm := agent_name_map agentFiltered
  [retLogin, retPlay, retFpay, fpltv].foldl (supplement_one selectedDate nm) base

/-- Modelled from the spec for the refinement comparison: the claim reads
the display name lookup as being "by id across all dates", i.e. the name
map built from the unfiltered agent frame. -/
def supplement_identity_universe_specNames (selectedDate : ℕ)
    (agentAll : List AgentRow) (base : List IdRow)
    (retLogin retPlay retFpay fpltv : List SrcKeyRow) : List IdRow :=
  let nm := agent_name_map agentAll
  [retLogin, retPlay, retFpay, fpltv].foldl (supplement_one selectedDate nm) base

/-! ## Retention offset source choice (main, lines 2179-2225) -/

/-- One row of a historical retention frame, as relevant to the offset
merge: the key columns and a representative retention value. -/
structure RetRow where
  platform : String
  agentId : Option Int
  d1 : ℚ
deriving DecidableEq

/-- The four `_historical` retention frames at the point of the offset
merge. -/
structure RetHist where
  fpay : List RetRow
  play : List RetRow
  login : List RetRow
  register : List RetRow
deriving DecidableEq

/-- Embeds the `ret_pick` chain (lines 2182-2190): the first non-empty
historical frame in the order first-pay, play, login, register is used
exclusively. -/
def ret_pick (h : RetHist) : List RetRow :=
  if h.fpay ≠ [] then h.fpay
  else if h.play ≠ [] then h.play
  else if h.login ≠ [] then h.login
  else if h.register ≠ [] then h.register
  else []

/-- Modelled from the spec for the refinement comparison: the claim's
stated preference order login, play, pay, register. -/
def ret_pick_spec_order (h : RetHist) : List RetRow :=
  if h.login ≠ [] then h.login
  else if h.play ≠ [] then h.play
  else if h.fpay ≠ [] then h.fpay
  else if h.register ≠ [] then h.register
  else []

/-- The merge-key choice of the retention offset join. -/
inductive RetMergeKeys
  | platAgent
  | agentOnly
  | platOnly
  | noKeys
deriving DecidableEq

/-- Embeds lines 2193-2204: `[盘口, 总代号]` when the agent-id column is in
both frames and the platform column is in both; `[总代号]` when only the
agent-id column is shared; `[盘口]` when only the platform column is
shared; otherwise the merge is skipped. -/
def ret_merge_keys (retHasAgent retHasPlat mainHasAgent mainHasPlat : Bool) :
    RetMergeKeys :=
  if retHasAgent && mainHasAgent then
    if retHasPlat && mainHasPlat then .platAgent else .agentOnly
  else if retHasPlat && mainHasPlat then .platOnly
  else .noKeys

/-! ## Cost merge, platform-level fill pass (main, lines 2072-2101) -/

/-- The four cost cells of a merged row after the channel-level pass
(`none` where that pass left the cell null). -/
structure CostCells where
  spend : Option ℚ
  impressions : Option ℚ
  clicks : Option ℚ
  withdraw : Option ℚ
deriving DecidableEq

/-- A merged row at the platform-level cost pass: the join keys, the four
cost cells, and a representative non-cost column. -/
structure BroadcastRow where
  date : ℕ
  platform : String
  cost : CostCells
  otherCols : String
deriving DecidableEq

/-- One row of the standardized cost frame restricted to
`[日期, 盘口, 消耗, 展示, 点击, 提现金额]`. -/
structure PlatCostRow where
  date : ℕ
  platform : String
  spend : ℚ
  impressions : ℚ
  clicks : ℚ
  withdraw : ℚ
deriving DecidableEq

/-- Embeds the pre-merge dedup `tmp.groupby(["日期","盘口"]).sum()` of
line 2093: one row per key, numeric columns summed. -/
def cost_platform_dedup (l : List PlatCostRow) : List PlatCostRow :=
  ((l.map (fun r => (r.date, r.platform))).dedup).map (fun k =>
    let grp := l.filter (fun r => (r.date, r.platform) == k)
    { date := k.1, platform := k.2,
      spend := (grp.map (fun r => r.spend)).sum,
      impressions := (grp.map (fun r => r.impressions)).sum,
      clicks := (grp.map (fun r => r.clicks)).sum,
      withdraw := (grp.map (fun r => r.withdraw)).sum })

/-- Embeds the left merge on `[日期, 盘口]` with suffix `_plat` followed by
the four `fillna` assignments (lines 2097-2101): each cost cell keeps its
channel-level value and takes the platform-level value only when null;
every other column is untouched. -/
def fill_from_platform (tbl : List PlatCostRow) (m : BroadcastRow) : BroadcastRow :=
  match tbl.find? (fun t => t.date == m.date && t.platform == m.platform) with
  | none => m
  | some t =>
    { m with cost :=
        { spend := m.cost.spend.orElse (fun _ => some t.spend),
          impressions := m.cost.impressions.orElse (fun _ => some t.impressions),
          clicks := m.cost.clicks.orElse (fun _ => some t.clicks),
          withdraw := m.cost.withdraw.orElse (fun _ => some t.withdraw) } }

/-- The whole platform-level pass: dedup the cost frame, then fill every
main row. -/
def merge_platform_cost (main : List BroadcastRow) (raw : List PlatCostRow) :
    List BroadcastRow :=
  main.map (fill_from_platform (cost_platform_dedup raw))

/-! ## Metric calculator (main, lines 2249-2359): safe-division formulas.
Each definition copies one lambda from the source; integer-typed counts
(`Int64` columns) are `Int`, money and rate columns are `ℚ`.  The guards
`r[c] and r[c] > 0` (Python truthiness, then the comparison) are
translated as `c ≠ 0 ∧ c > 0`. -/

/-- Embeds `千展成本crm = 消耗 / (展示/1000) if 展示>0 else 0.0`. -/
def cost_per_mille_crm (spend : ℚ) (impressions : Int) : ℚ :=
  if impressions > 0 then spend / ((impressions : ℚ) / 1000) else 0

/-- Embeds `点击率 = 点击 / 展示 if 展示>0 else 0.0`. -/
def click_rate (clicks impressions : Int) : ℚ :=
  if impressions > 0 then (clicks : ℚ) / (impressions : ℚ) else 0

/-- Embeds `注册成本 = 消耗 / 注册人数 if 注册人数 and 注册人数>0 else 0.0`. -/
def register_cost (spend : ℚ) (registers : Int) : ℚ :=
  if registers ≠ 0 ∧ registers > 0 then spend / (registers : ℚ) else 0

/-- Embeds `首充成本 = 消耗 / 首充人数 if 首充人数 and 首充人数>0 else 0.0`. -/
def first_pay_cost (spend : ℚ) (firstPayUsers : Int) : ℚ :=
  if firstPayUsers ≠ 0 ∧ firstPayUsers > 0 then spend / (firstPayUsers : ℚ) else 0

/-- Embeds `一级首充成本 = 消耗 / 一级首充人数 if ... else 0.0`. -/
def primary_first_pay_cost (spend : ℚ) (primaryFirstPayUsers : Int) : ℚ :=
  if primaryFirstPayUsers ≠ 0 ∧ primaryFirstPayUsers > 0 then
    spend / (primaryFirstPayUsers : ℚ) else 0

/-- Embeds `首充转化率 = 首充人数 / 注册人数 if 注册人数 and 注册人数>0 else 0.0`. -/
def first_pay_conversion (firstPayUsers registers : Int) : ℚ :=
  if registers ≠ 0 ∧ registers > 0 then (firstPayUsers : ℚ) / (registers : ℚ) else 0

/-- Embeds `首充arppu = 当日首充金额 / 首充人数 if ... else 0.0`. -/
def first_pay_arppu (firstPayAmount : ℚ) (firstPayUsers : Int) : ℚ :=
  if firstPayUsers ≠ 0 ∧ firstPayUsers > 0 then
    firstPayAmount / (firstPayUsers : ℚ) else 0

/-- Embeds `首充roas = 当日首充金额 / 消耗 if 消耗>0 else 0.0`. -/
def first_pay_roas (firstPayAmount spend : ℚ) : ℚ :=
  if spend > 0 then firstPayAmount / spend else 0

/-- Embeds `首充当日roi = 首充当日充提差 / 消耗 if 消耗>0 else 0.0`. -/
def first_pay_day1_roi (firstPayNetDiff spend : ℚ) : ℚ :=
  if spend > 0 then firstPayNetDiff / spend else 0

/-- Embeds `首充充提差比 = 首充当日充提差 / 当日首充金额 if 当日首充金额>0 else 0.0`. -/
def first_pay_net_share (firstPayNetDiff firstPayAmount : ℚ) : ℚ :=
  if firstPayAmount > 0 then firstPayNetDiff / firstPayAmount else 0

/-- Embeds `累计roas = 累计充值金额 / 累计消耗 if 累计消耗>0 else 0.0`. -/
def cumulative_roas (cumPayAmount cumSpend : ℚ) : ℚ :=
  if cumSpend > 0 then cumPayAmount / cumSpend else 0

/-- Embeds `非一级首充人数/首充人数 = ... if 首充人数 and 首充人数>0 else 0.0`. -/
def non_primary_over_first_pay (nonPrimary firstPayUsers : Int) : ℚ :=
  if firstPayUsers ≠ 0 ∧ firstPayUsers > 0 then
    (nonPrimary : ℚ) / (firstPayUsers : ℚ) else 0

/-- Embeds `非一级首充人数/充值人数 = ... if 充值人数 and 充值人数>0 else 0.0`. -/
def non_primary_over_pay_users (nonPrimary payUsers : Int) : ℚ :=
  if payUsers ≠ 0 ∧ payUsers > 0 then (nonPrimary : ℚ) / (payUsers : ℚ) else 0

/-! ## Target-date selection (main, lines 1609-1629) -/

/-- Configured target date.  `auto` collapses the three configurations the
source treats identically via `if target_date and target_date != "latest"`
(`None`, the empty string, `"latest"`). -/
inductive TargetDate
  | auto
  | specific (d : ℕ)
deriving DecidableEq

/-- Embeds the date-selection block: with at least one observed date, a
specific configured date is used when present among the observed dates of
all sources, else replaced by the maximum observed date; in the automatic
mode the agent source's maximum date is preferred, falling back to the
global maximum.  `allDates` models the union `all_dates`, `agentDates`
the non-null entries of the agent frame's date column. -/
def choose_selected_date (target : TargetDate) (allDates agentDates : List ℕ) :
    Option ℕ :=
  if allDates = [] then none
  else
    match target with
    | .specific d => if d ∈ allDates then some d else allDates.max?
    | .auto => if agentDates ≠ [] then agentDates.max? else allDates.max?

/-! ## Deposit-withdraw recomputation (main, lines 2228-2247) -/

/-- Embeds `num(col, 0.0)`: a merged cell coerced to numeric with nulls
filled by the default. -/
def num_fill (v : Option ℚ) : ℚ := v.getD 0

/-- The merged amount cells feeding the `充提差` recomputation: pay amount,
withdrawal amount, and the `充提差` value possibly carried over from the
agent-report source's own column (std_agent lines 1029-1030). -/
structure MergedAmounts where
  payAmount : Option ℚ
  withdrawAmount : Option ℚ
  depositWithdrawDiff : Option ℚ
deriving DecidableEq

/-- Embeds line 2247, `main["充提差"] = (充值金额 - 提现金额).fillna(0.0)`,
both operands already null-filled by `num`; the assignment replaces any
previous `充提差` column. -/
def recompute_diff_row (r : MergedAmounts) : MergedAmounts :=
  { r with depositWithdrawDiff := some (num_fill r.payAmount - num_fill r.withdrawAmount) }

/-! ## Helper lemmas -/

/-- Non-empty lists of naturals have a maximum that belongs to the list and
bounds it. -/
theorem max?_spec (l : List ℕ) (h : l ≠ []) :
    ∃ m, l.max? = some m ∧ m ∈ l ∧ ∀ x ∈ l, x ≤ m := by
  cases hl : l.max? with
  | none => exact absurd (List.max?_eq_none_iff.mp hl) h
  | some m =>
    refine ⟨m, rfl, List.max?_mem (fun a b => max_choice a b) hl, ?_⟩
    intro x hx
    exact (List.max?_le_iff (fun a b c => max_le_iff) hl).1 le_rfl x hx

/-- Every element of `trimChars l` is an element of `l`. -/
theorem trimChars_subset (l : List Char) {x : Char} (hx : x ∈ trimChars l) : x ∈ l := by
  have h1 := (List.dropWhile_sublist (l := (l.dropWhile Char.isWhitespace).reverse)
    (p := Char.isWhitespace)).mem (List.mem_reverse.mp hx)
  exact (List.dropWhile_sublist (l := l) (p := Char.isWhitespace)).mem
    (List.mem_reverse.mp h1)

/-- A list with no opening parenthesis has no parenthesised-percentage
match. -/
theorem findParenPct_none (l : List Char) (h : ∀ c ∈ l, c ≠ '(') :
    findParenPct l = none := by
  induction l with
  | nil => rfl
  | cons c rest ih =>
    have hne : ¬ (c = '(') := h c (List.mem_cons_self _ _)
    rw [findParenPct, if_neg hne]
    exact ih (fun x hx => h x (List.mem_cons_of_mem _ hx))

/-- A list without the percent character does not `contains` it. -/
theorem contains_pct_false (l : List Char) (h : ∀ c ∈ l, c ≠ '%') :
    l.contains '%' = false := by
  rw [List.contains]
  by_contra hc
  have := List.mem_of_elem_eq_true (Bool.of_not_eq_false hc)
  exact h _ this rfl

/-! ## Claim C8: extract_retention_rate -/

/-- C8.  `extract_retention_rate` returns percentages on the 0-100 scale:
a parenthesised percentage yields the enclosed number, a direct percentage
string yields its number, a bare numeric value at most 1 is scaled by 100
while a larger one passes through, and blank or unparseable input yields
0; the quantified clause settles every bare numeric string (sign, digits
and at most one point) via its parsed decomposition. -/
theorem c8_extract_retention_rate_scale :
    extract_retention_rate "2 (8.70%)" = 87 / 10 ∧
    extract_retention_rate "8.7%" = 87 / 10 ∧
    extract_retention_rate "0.087" = 87 / 10 ∧
    extract_retention_rate "42" = 42 ∧
    extract_retention_rate "" = 0 ∧
    extract_retention_rate "abc" = 0 ∧
    ∀ (s : String) (p : Bool × ℕ × ℕ × ℕ),
      (∀ c ∈ s.toList, c.isDigit = true ∨ c = '.' ∨ c = '-' ∨ c = '+') →
      parse_float_parts (trimChars s.toList) = some p →
      extract_retention_rate s =
        (if parts_to_rat p ≤ 1 then parts_to_rat p * 100 else parts_to_rat p) := by
  refine ⟨?_, ?_, ?_, ?_, ?_, ?_, ?_⟩
  · have ht : trimChars "2 (8.70%)".toList = ['2', ' ', '(', '8', '.', '7', '0', '%', ')'] := by
      decide
    have h2 : findParenPct ['2', ' ', '(', '8', '.', '7', '0', '%', ')'] =
        some ['8', '.', '7', '0'] := by decide
    have h3 : parse_float_parts ['8', '.', '7', '0'] = some (false, 8, 70, 2) := by decide
    rw [extract_retention_rate, ht, extractRetChars]
    simp only [h2, parse_float_chars, h3, Option.map_some', Option.getD_some,
      List.isEmpty_cons, Bool.false_eq_true, if_false]
    norm_num [parts_to_rat]
  · have ht : trimChars "8.7%".toList = ['8', '.', '7', '%'] := by decide
    have h2 : findParenPct ['8', '.', '7', '%'] = none := by decide
    have h3 : (['8', '.', '7', '%'] : List Char).contains '%' = true := by decide
    have h4 : parse_float_parts ((['8', '.', '7', '%'] : List Char).filter (fun c => c ≠ '%')) =
        some (false, 8, 7, 1) := by decide
    rw [extract_retention_rate, ht, extractRetChars]
    simp only [h2, h3, parse_float_chars, h4, Option.map_some', Option.getD_some,
      List.isEmpty_cons, Bool.false_eq_true, if_false, if_true]
    norm_num [parts_to_rat]
  · have ht : trimChars "0.087".toList = ['0', '.', '0', '8', '7'] := by decide
    have h2 : findParenPct ['0', '.', '0', '8', '7'] = none := by decide
    have h3 : (['0', '.', '0', '8', '7'] : List Char).contains '%' = false := by decide
    have h4 : parse_float_parts ['0', '.', '0', '8', '7'] = some (false, 0, 87, 3) := by decide
    rw [extract_retention_rate, ht, extractRetChars]
    simp only [h2, h3, parse_float_chars, h4, Option.map_some', List.isEmpty_cons,
      Bool.false_eq_true, if_false]
    rw [if_pos (by norm_num [parts_to_rat])]
    norm_num [parts_to_rat]
  · have ht : trimChars "42".toList = ['4', '2'] := by decide
    have h2 : findParenPct ['4', '2'] = none := by decide
    have h3 : (['4', '2'] : List Char).contains '%' = false := by decide
    have h4 : parse_float_parts ['4', '2'] = some (false, 42, 0, 0) := by decide
    rw [extract_retention_rate, ht, extractRetChars]
    simp only [h2, h3, parse_float_chars, h4, Option.map_some', List.isEmpty_cons,
      Bool.false_eq_true, if_false]
    rw [if_neg (by norm_num [parts_to_rat])]
    norm_num [parts_to_rat]
  · rfl
  · have ht : trimChars "abc".toList = ['a', 'b', 'c'] := by decide
    have h2 : findParenPct ['a', 'b', 'c'] = none := by decide
    have h3 : (['a', 'b', 'c'] : List Char).contains '%' = false := by decide
    have h4 : parse_float_parts ['a', 'b', 'c'] = none := by decide
    rw [extract_retention_rate, ht, extractRetChars]
    simp only [h2, h3, parse_float_chars, h4, Option.map_none', List.isEmpty_cons,
      Bool.false_eq_true, if_false]
  · intro s p hchars hp
    have hsub : ∀ c ∈ trimChars s.toList, c.isDigit = true ∨ c = '.' ∨ c = '-' ∨ c = '+' :=
      fun c hc => hchars c (trimChars_subset _ hc)
    have hne : trimChars s.toList ≠ [] := by
      intro h0
      have hnone : parse_float_parts ([] : List Char) = none := by decide
      rw [h0, hnone] at hp
      cases hp
    have hparen : findParenPct (trimChars s.toList) = none := by
      refine findParenPct_none _ (fun c hc => ?_)
      rcases hsub c hc with h | h | h | h
      · intro heq; rw [heq] at h; exact absurd h (by decide)
      · intro heq; rw [heq] at h; exact absurd h (by decide)
      · intro heq; rw [heq] at h; exact absurd h (by decide)
      · intro heq; rw [heq] at h; exact absurd h (by decide)
    have hpct : (trimChars s.toList).contains '%' = false := by
      refine contains_pct_false _ (fun c hc => ?_)
      rcases hsub c hc with h | h | h | h
      · intro heq; rw [heq] at h; exact absurd h (by decide)
      · intro heq; rw [heq] at h; exact absurd h (by decide)
      · intro heq; rw [heq] at h; exact absurd h (by decide)
      · intro heq; rw [heq] at h; exact absurd h (by decide)
    have hemp : (trimChars s.toList).isEmpty = false := by
      cases h : trimChars s.toList with
      | nil => exact absurd h hne
      | cons a l => rfl
    rw [extract_retention_rate, extractRetChars]
    simp only [hemp, Bool.false_eq_true, if_false, hparen, hpct, parse_float_chars, hp,
      Option.map_some']

/-- C8 witness: the quantified bare-number clause evaluated at `"0.087"`. -/
theorem c8_extract_retention_rate_scale_witness :
    extract_retention_rate "0.087" =
      (if parts_to_rat (false, 0, 87, 3) ≤ 1 then parts_to_rat (false, 0, 87, 3) * 100
       else parts_to_rat (false, 0, 87, 3)) :=
  c8_extract_retention_rate_scale.2.2.2.2.2.2 "0.087" (false, 0, 87, 3)
    (by decide) (by decide)

/-! ## Claim C6: safe division in the metric calculator -/

/-- C6.  Every derived ratio metric uses safe division: a denominator at
most 0 yields exactly 0 (the guarded branches never divide, so no division
raises or produces a non-finite value). -/
theorem c6_safe_division :
    (∀ (s : ℚ) (i : Int), i ≤ 0 → cost_per_mille_crm s i = 0) ∧
    (∀ (c i : Int), i ≤ 0 → click_rate c i = 0) ∧
    (∀ (s : ℚ) (n : Int), n ≤ 0 → register_cost s n = 0) ∧
    (∀ (s : ℚ) (n : Int), n ≤ 0 → first_pay_cost s n = 0) ∧
    (∀ (s : ℚ) (n : Int), n ≤ 0 → primary_first_pay_cost s n = 0) ∧
    (∀ (f n : Int), n ≤ 0 → first_pay_conversion f n = 0) ∧
    (∀ (a : ℚ) (n : Int), n ≤ 0 → first_pay_arppu a n = 0) ∧
    (∀ (a s : ℚ), s ≤ 0 → first_pay_roas a s = 0) ∧
    (∀ (d s : ℚ), s ≤ 0 → first_pay_day1_roi d s = 0) ∧
    (∀ (d a : ℚ), a ≤ 0 → first_pay_net_share d a = 0) ∧
    (∀ (p s : ℚ), s ≤ 0 → cumulative_roas p s = 0) ∧
    (∀ (np n : Int), n ≤ 0 → non_primary_over_first_pay np n = 0) ∧
    (∀ (np n : Int), n ≤ 0 → non_primary_over_pay_users np n = 0) := by
  refine ⟨?_, ?_, ?_, ?_, ?_, ?_, ?_, ?_, ?_, ?_, ?_, ?_, ?_⟩
  · intro s i h; rw [cost_per_mille_crm, if_neg (by omega)]
  · intro c i h; rw [click_rate, if_neg (by omega)]
  · intro s n h; rw [register_cost, if_neg (by omega)]
  · intro s n h; rw [first_pay_cost, if_neg (by omega)]
  · intro s n h; rw [primary_first_pay_cost, if_neg (by omega)]
  · intro f n h; rw [first_pay_conversion, if_neg (by omega)]
  · intro a n h; rw [first_pay_arppu, if_neg (by omega)]
  · intro a s h; rw [first_pay_roas, if_neg (not_lt.mpr h)]
  · intro d s h; rw [first_pay_day1_roi, if_neg (not_lt.mpr h)]
  · intro d a h; rw [first_pay_net_share, if_neg (not_lt.mpr h)]
  · intro p s h; rw [cumulative_roas, if_neg (not_lt.mpr h)]
  · intro np n h; rw [non_primary_over_first_pay, if_neg (by omega)]
  · intro np n h; rw [non_primary_over_pay_users, if_neg (by omega)]

/-- C6 witness: each safe-division guard evaluated at a non-positive
denominator. -/
theorem c6_safe_division_witness :
    cost_per_mille_crm 5 0 = 0 ∧ click_rate 3 (-2) = 0 ∧ register_cost 7 0 = 0 ∧
    first_pay_cost 7 (-1) = 0 ∧ primary_first_pay_cost 7 0 = 0 ∧
    first_pay_conversion 4 0 = 0 ∧ first_pay_arppu 9 0 = 0 ∧
    first_pay_roas 9 0 = 0 ∧ first_pay_day1_roi 9 (-3) = 0 ∧
    first_pay_net_share 9 0 = 0 ∧ cumulative_roas 9 0 = 0 ∧
    non_primary_over_first_pay 2 0 = 0 ∧ non_primary_over_pay_users 2 (-5) = 0 :=
  ⟨c6_safe_division.1 5 0 le_rfl,
   c6_safe_division.2.1 3 (-2) (by norm_num),
   c6_safe_division.2.2.1 7 0 le_rfl,
   c6_safe_division.2.2.2.1 7 (-1) (by norm_num),
   c6_safe_division.2.2.2.2.1 7 0 le_rfl,
   c6_safe_division.2.2.2.2.2.1 4 0 le_rfl,
   c6_safe_division.2.2.2.2.2.2.1 9 0 le_rfl,
   c6_safe_division.2.2.2.2.2.2.2.1 9 0 le_rfl,
   c6_safe_division.2.2.2.2.2.2.2.2.1 9 (-3) (by norm_num),
   c6_safe_division.2.2.2.2.2.2.2.2.2.1 9 0 le_rfl,
   c6_safe_division.2.2.2.2.2.2.2.2.2.2.1 9 0 le_rfl,
   c6_safe_division.2.2.2.2.2.2.2.2.2.2.2.1 2 0 le_rfl,
   c6_safe_division.2.2.2.2.2.2.2.2.2.2.2.2 2 (-5) (by norm_num)⟩

/-! ## Claim C9: missing target date substituted by the maximum date -/

/-- C9.  When a specific target date is configured but absent from every
source's observed dates (which are non-empty), the pipeline neither fails
nor drops the run: it selects the maximum observed date instead. -/
theorem c9_missing_date_substituted (d : ℕ) (allDates agentDates : List ℕ)
    (hne : allDates ≠ []) (hmem : d ∉ allDates) :
    ∃ m, choose_selected_date (TargetDate.specific d) allDates agentDates = some m ∧
      m ∈ allDates ∧ ∀ x ∈ allDates, x ≤ m := by
  obtain ⟨m, h1, h2, h3⟩ := max?_spec allDates hne
  refine ⟨m, ?_, h2, h3⟩
  rw [choose_selected_date, if_neg hne]
  simp only [if_neg hmem]
  exact h1

/-- C9 witness: target date 20251030 absent from {20251028, 20251029}
yields 20251029. -/
theorem c9_missing_date_substituted_witness :
    ∃ m, choose_selected_date (TargetDate.specific 20251030) [20251028, 20251029] []
        = some m ∧
      m ∈ [20251028, 20251029] ∧ ∀ x ∈ [20251028, 20251029], x ≤ m :=
  c9_missing_date_substituted 20251030 [20251028, 20251029] [] (by decide) (by decide)

/-! ## Claim C10: the deposit-withdraw difference is recomputed -/

/-- C10.  In every merged row the `充提差` cell is replaced by pay amount
minus withdrawal amount (nulls as 0), the operand cells are untouched, and
the result is independent of whatever `充提差` value the agent-report
source carried. -/
theorem c10_deposit_withdraw_diff_recomputed :
    ∀ r : MergedAmounts,
      (recompute_diff_row r).depositWithdrawDiff =
        some (num_fill r.payAmount - num_fill r.withdrawAmount) ∧
      (recompute_diff_row r).payAmount = r.payAmount ∧
      (recompute_diff_row r).withdrawAmount = r.withdrawAmount ∧
      ∀ v : Option ℚ,
        recompute_diff_row { r with depositWithdrawDiff := v } = recompute_diff_row r := by
  intro r
  exact ⟨rfl, rfl, rfl, fun v => rfl⟩

/-! ## Claim C1: retention offset source choice -/

/-- A state with both the login and first-pay historical retention sets
non-empty (and distinct), exercising the source-preference order. -/
def retHistBoth : RetHist :=
  { fpay := [⟨"P", some 5, 1⟩], play := [], login := [⟨"P", some 5, 2⟩], register := [] }

/-- C1 counterexample: with both the login and the first-pay historical
sets non-empty, the code takes the first-pay set exclusively, not the
login set that the claimed order login > play > pay > register
prescribes. -/
theorem c1_counterexample_priority_order :
    ret_pick retHistBoth = retHistBoth.fpay ∧
    ret_pick_spec_order retHistBoth = retHistBoth.login ∧
    ret_pick retHistBoth ≠ ret_pick_spec_order retHistBoth := by
  refine ⟨rfl, rfl, ?_⟩
  intro h
  have : (1 : ℚ) = 2 := congrArg RetRow.d1 (List.head_eq_of_cons_eq h)
  norm_num at this

/-- C1 (amended).  The retention offset metrics come from exactly one
historical retention set, the first non-empty one in the order first-pay >
play > login > register (never merged across kinds), and the join keys are
`[盘口, 总代号]` when both frames share both columns, `[总代号]` alone when
only the agent-id column is shared, and `[盘口]` only when the agent-id
column is unavailable. -/
theorem c1_retention_offset_source_priority :
    (∀ h : RetHist,
      (h.fpay ≠ [] → ret_pick h = h.fpay) ∧
      (h.fpay = [] → h.play ≠ [] → ret_pick h = h.play) ∧
      (h.fpay = [] → h.play = [] → h.login ≠ [] → ret_pick h = h.login) ∧
      (h.fpay = [] → h.play = [] → h.login = [] → h.register ≠ [] →
        ret_pick h = h.register) ∧
      (ret_pick h = h.fpay ∨ ret_pick h = h.play ∨ ret_pick h = h.login ∨
        ret_pick h = h.register ∨ ret_pick h = [])) ∧
    (∀ ra rp ma mp : Bool,
      (ret_merge_keys ra rp ma mp = RetMergeKeys.platAgent ↔
        ra = true ∧ ma = true ∧ rp = true ∧ mp = true) ∧
      (ret_merge_keys ra rp ma mp = RetMergeKeys.agentOnly ↔
        ra = true ∧ ma = true ∧ ¬(rp = true ∧ mp = true)) ∧
      (ret_merge_keys ra rp ma mp = RetMergeKeys.platOnly ↔
        ¬(ra = true ∧ ma = true) ∧ rp = true ∧ mp = true)) := by
  constructor
  · intro h
    refine ⟨?_, ?_, ?_, ?_, ?_⟩
    · intro h1; rw [ret_pick, if_pos h1]
    · intro h1 h2; rw [ret_pick, if_neg (by simp [h1]), if_pos h2]
    · intro h1 h2 h3
      rw [ret_pick, if_neg (by simp [h1]), if_neg (by simp [h2]), if_pos h3]
    · intro h1 h2 h3 h4
      rw [ret_pick, if_neg (by simp [h1]), if_neg (by simp [h2]),
        if_neg (by simp [h3]), if_pos h4]
    · rw [ret_pick]; split_ifs <;> simp
  · decide

/-- C1 witness: a run with only the first-pay set filled takes it, and
shared agent-id without a shared platform column joins on the id alone. -/
theorem c1_retention_offset_source_priority_witness :
    ret_pick ⟨[⟨"P", some 5, 1⟩], [], [], []⟩ = [⟨"P", some 5, 1⟩] ∧
    ret_merge_keys true false true true = RetMergeKeys.agentOnly :=
  ⟨(c1_retention_offset_source_priority.1 ⟨[⟨"P", some 5, 1⟩], [], [], []⟩).1
      (by simp),
    ((c1_retention_offset_source_priority.2 true false true true).2.1).mpr
      (by simp)⟩

/-! ## Claim C5: identity supplementation -/

/-- Elements of `dedup_keep_first_aux seen l` come from `l`. -/
theorem dedup_keep_first_aux_subset :
    ∀ (l : List (Int × String × String)) (seen : List Int),
      ∀ q ∈ dedup_keep_first_aux seen l, q ∈ l := by
  intro l
  induction l with
  | nil =>
    intro seen q hq
    cases hq
  | cons p rest ih =>
    intro seen q hq
    rw [dedup_keep_first_aux] at hq
    by_cases hc : seen.contains p.1 = true
    · rw [if_pos hc] at hq
      exact List.mem_cons_of_mem _ (ih seen q hq)
    · rw [if_neg hc] at hq
      rcases List.mem_cons.mp hq with rfl | hq2
      · exact List.mem_cons_self _ _
      · exact List.mem_cons_of_mem _ (ih _ q hq2)

/-- Elements of `dedup_keep_first l` come from `l`. -/
theorem dedup_keep_first_subset :
    ∀ (l : List (Int × String × String)), ∀ q ∈ dedup_keep_first l, q ∈ l :=
  fun l => dedup_keep_first_aux_subset l []

/-- A successful name lookup exhibits a matching entry of the table. -/
theorem name_lookup_mem {nm : List (Int × String × String)} {id : Int}
    {p : String × String} (h : name_lookup nm id = some p) :
    (id, p.1, p.2) ∈ nm := by
  rw [name_lookup] at h
  cases hf : nm.find? (fun q => q.1 == id) with
  | none => rw [hf] at h; cases h
  | some q =>
    rw [hf] at h
    have hmem := List.mem_of_find?_eq_some hf
    have hq1 : q.1 = id := by simpa using List.find?_some hf
    obtain ⟨q1, q2, q3⟩ := q
    simp only [Option.map_some', Option.some.injEq] at h
    subst h
    subst hq1
    exact hmem

/-- A successful lookup in the agent name map exhibits an agent row with
that id and that display name. -/
theorem name_lookup_agent {agent : List AgentRow} {id : Int} {p : String × String}
    (h : name_lookup (agent_name_map agent) id = some p) :
    ∃ a ∈ agent, a.agentId = id ∧ a.name = p.1 := by
  have hmem := dedup_keep_first_subset _ _ (name_lookup_mem h)
  obtain ⟨a, ha, heq⟩ := List.mem_map.mp hmem
  refine ⟨a, ha, ?_, ?_⟩
  · exact congrArg Prod.fst heq
  · exact congrArg (fun t => t.2.1) heq

/-- One supplement round appends rows and characterises them: target-date
keys absent from the current base, unset promotion method, names from the
lookup table. -/
theorem supplement_one_split (d : ℕ) (nm : List (Int × String × String))
    (base : List IdRow) (src : List SrcKeyRow) :
    ∃ extra, supplement_one d nm base src = base ++ extra ∧
      ∀ r ∈ extra, r.date = d ∧
        (r.date, r.platform, r.agentId) ∉
          base.map (fun b => (b.date, b.platform, b.agentId)) ∧
        r.promoMethod = none ∧
        (∀ n, r.name = some n → ∃ q, name_lookup nm r.agentId = some q ∧ q.1 = n) := by
  refine ⟨_, rfl, ?_⟩
  intro r hr
  obtain ⟨k, hk, rfl⟩ := List.mem_map.mp hr
  obtain ⟨hk3, hk4⟩ := List.mem_filter.mp hk
  obtain ⟨sr, hsr, hkeq⟩ := List.mem_map.mp (List.mem_dedup.mp hk3)
  have hsrd : sr.date = d := by simpa using (List.mem_filter.mp hsr).2
  obtain ⟨k1, k2, k3⟩ := k
  have hk1 : k1 = d := by
    have := congrArg (fun t => t.1) hkeq
    simp only at this
    rw [← this, hsrd]
  refine ⟨hk1, ?_, rfl, ?_⟩
  · intro hmem
    have helem := List.elem_eq_true_of_mem hmem
    rw [Bool.not_eq_true'] at hk4
    rw [List.contains] at hk4
    simp only at helem
    rw [helem] at hk4
    cases hk4
  · intro n hn
    simp only at hn
    cases hl : name_lookup nm k3 with
    | none => rw [hl] at hn; cases hn
    | some q =>
      rw [hl] at hn
      simp only [Option.map_some', Option.some.injEq] at hn
      exact ⟨q, rfl, hn⟩

/-- Folding the supplement rounds over any source list splits the result
into the untouched base plus characterised appended rows. -/
theorem supplement_fold_split (d : ℕ) (nm : List (Int × String × String)) :
    ∀ (srcs : List (List SrcKeyRow)) (base : List IdRow),
      ∃ extra, srcs.foldl (supplement_one d nm) base = base ++ extra ∧
        ∀ r ∈ extra, r.date = d ∧
          (r.date, r.platform, r.agentId) ∉
            base.map (fun b => (b.date, b.platform, b.agentId)) ∧
          r.promoMethod = none ∧
          (∀ n, r.name = some n → ∃ q, name_lookup nm r.agentId = some q ∧ q.1 = n) := by
  intro srcs
  induction srcs with
  | nil =>
    intro base
    exact ⟨[], by simp, by simp⟩
  | cons s tl ih =>
    intro base
    obtain ⟨e1, he1, hp1⟩ := supplement_one_split d nm base s
    obtain ⟨e2, he2, hp2⟩ := ih (base ++ e1)
    refine ⟨e1 ++ e2, ?_, ?_⟩
    · rw [List.foldl_cons, he1, he2, List.append_assoc]
    · intro r hr
      rcases List.mem_append.mp hr with h | h
      · exact hp1 r h
      · obtain ⟨hd, hnk, hpm, hname⟩ := hp2 r h
        refine ⟨hd, ?_, hpm, hname⟩
        intro hmem
        exact hnk (by rw [List.map_append]; exact List.mem_append_left _ hmem)

/-- C5 (amended).  The supplementary pass only appends: the base identity
universe survives unchanged as a prefix (so the universe stays a superset
of the agent-report universe), every appended row carries the target date,
a key absent from the base, an unset promotion method — and any non-null
display name comes from a target-date agent row (the id-to-name table is
built at line 1823 from the already date-filtered agent frame, not across
all dates). -/
theorem c5_identity_supplement_superset (d : ℕ) (agentAll : List AgentRow)
    (base : List IdRow) (rl rp rf fl : List SrcKeyRow) :
    ∃ extra,
      supplement_identity_universe d agentAll base rl rp rf fl = base ++ extra ∧
      ∀ r ∈ extra, r.date = d ∧
        (r.date, r.platform, r.agentId) ∉
          base.map (fun b => (b.date, b.platform, b.agentId)) ∧
        r.promoMethod = none ∧
        (∀ n, r.name = some n →
          ∃ a ∈ agentAll, a.date = d ∧ a.agentId = r.agentId ∧ a.name = n) := by
  obtain ⟨extra, heq, hprop⟩ := supplement_fold_split d
    (agent_name_map (agentAll.filter (fun r => r.date == d))) [rl, rp, rf, fl] base
  refine ⟨extra, heq, ?_⟩
  intro r hr
  obtain ⟨hd, hnk, hpm, hname⟩ := hprop r hr
  refine ⟨hd, hnk, hpm, ?_⟩
  intro n hn
  obtain ⟨q, hq, hq1⟩ := hname n hn
  obtain ⟨a, ha, haid, haname⟩ := name_lookup_agent hq
  have hamem := List.mem_filter.mp ha
  exact ⟨a, hamem.1, by simpa using hamem.2, haid, by rw [haname, hq1]⟩

/-- C5 witness: the amended statement instantiated on a one-row agent
frame and one supplementary retention key. -/
theorem c5_identity_supplement_superset_witness :
    ∃ extra,
      supplement_identity_universe 30 [⟨30, 5, "N", "Nc"⟩] [] [⟨30, "P", 7⟩] [] [] [] =
        [] ++ extra ∧
      ∀ r ∈ extra, r.date = 30 ∧
        (r.date, r.platform, r.agentId) ∉
          ([] : List IdRow).map (fun b => (b.date, b.platform, b.agentId)) ∧
        r.promoMethod = none ∧
        (∀ n, r.name = some n →
          ∃ a ∈ [(⟨30, 5, "N", "Nc"⟩ : AgentRow)], a.date = 30 ∧
            a.agentId = r.agentId ∧ a.name = n) :=
  c5_identity_supplement_superset 30 [⟨30, 5, "N", "Nc"⟩] [] [⟨30, "P", 7⟩] [] [] []

/-- The supplement inputs of the C5 counterexample: the only agent-report
row carries the display name on a date other than the target date. -/
def c5AgentOffDate : List AgentRow := [⟨29, 5, "X", "Xc"⟩]

/-- The supplementary retention key of the C5 counterexample. -/
def c5SrcKey : List SrcKeyRow := [⟨30, "P", 5⟩]

/-- C5 counterexample: the appended identity row's display name is null,
because the id-to-name table is built from the date-filtered agent frame;
under the claim's across-all-dates lookup it would be the off-date name. -/
theorem c5_counterexample_name_lookup_date_filtered :
    supplement_identity_universe 30 c5AgentOffDate [] c5SrcKey [] [] [] =
      [⟨30, "P", 5, none, none, none⟩] ∧
    supplement_identity_universe_specNames 30 c5AgentOffDate [] c5SrcKey [] [] [] =
      [⟨30, "P", 5, some "X", some "Xc", none⟩] ∧
    supplement_identity_universe 30 c5AgentOffDate [] c5SrcKey [] [] [] ≠
      supplement_identity_universe_specNames 30 c5AgentOffDate [] c5SrcKey [] [] [] := by
  refine ⟨by decide, by decide, ?_⟩
  intro h
  rw [show supplement_identity_universe 30 c5AgentOffDate [] c5SrcKey [] [] [] =
      [⟨30, "P", 5, none, none, none⟩] from by decide,
    show supplement_identity_universe_specNames 30 c5AgentOffDate [] c5SrcKey [] [] [] =
      [⟨30, "P", 5, some "X", some "Xc", none⟩] from by decide] at h
  cases h

/-! ## Claim C3: best-file selection -/

/-- Propositional reading of the lexicographic score comparison. -/
theorem scoreGt_eq_true_iff (a b : Int × Int × ℕ) :
    scoreGt a b = true ↔
      (a.1 > b.1 ∨ (a.1 = b.1 ∧ (a.2.1 > b.2.1 ∨ (a.2.1 = b.2.1 ∧ a.2.2 > b.2.2)))) := by
  simp [scoreGt]

/-- Propositional reading of a failed score comparison. -/
theorem scoreGt_eq_false_iff (a b : Int × Int × ℕ) :
    scoreGt a b = false ↔
      ¬(a.1 > b.1 ∨ (a.1 = b.1 ∧ (a.2.1 > b.2.1 ∨ (a.2.1 = b.2.1 ∧ a.2.2 > b.2.2)))) := by
  rw [← scoreGt_eq_true_iff, Bool.eq_false_iff]

/-- Strictly greater scores are asymmetric. -/
theorem scoreGt_asymm {a b : Int × Int × ℕ} (h : scoreGt a b = true) :
    scoreGt b a = false := by
  rw [scoreGt_eq_true_iff] at h
  rw [scoreGt_eq_false_iff]
  omega

/-- Not-greater is transitive (the non-strict order of the lexicographic
comparison). -/
theorem scoreGt_false_trans {a b c : Int × Int × ℕ}
    (h1 : scoreGt a b = false) (h2 : scoreGt b c = false) : scoreGt a c = false := by
  rw [scoreGt_eq_false_iff] at h1 h2 ⊢
  omega

/-- No score strictly exceeds itself. -/
theorem scoreGt_irrefl_aux (s : Int × Int × ℕ) : scoreGt s s = false := by
  rw [scoreGt_eq_false_iff]
  omega

/-- A run of the selection loop ending with no best candidate started with
no accumulator and saw only unscorable candidates. -/
theorem selectLoop_eq_none :
    ∀ (l : List Candidate) (acc),
      selectLoop l acc = none → acc = none ∧ ∀ c ∈ l, candScore c = none := by
  intro l
  induction l with
  | nil =>
    intro acc h
    exact ⟨h, fun c hc => absurd hc (List.not_mem_nil c)⟩
  | cons f rest ih =>
    intro acc h
    rw [selectLoop] at h
    cases hf : candScore f with
    | none =>
      simp only [hf] at h
      obtain ⟨ha, hall⟩ := ih acc h
      refine ⟨ha, fun c hc => ?_⟩
      rcases List.mem_cons.mp hc with rfl | hc2
      · exact hf
      · exact hall c hc2
    | some s =>
      simp only [hf] at h
      cases acc with
      | none =>
        obtain ⟨ha, _⟩ := ih _ h
        cases ha
      | some p =>
        obtain ⟨p1, p2⟩ := p
        cases hgt : scoreGt s p1 with
        | true =>
          simp only [hgt, if_true] at h
          obtain ⟨ha, _⟩ := ih _ h
          cases ha
        | false =>
          simp only [hgt, Bool.false_eq_true, if_false] at h
          obtain ⟨ha, _⟩ := ih _ h
          cases ha

/-- Invariant of the selection loop: the final best either is the starting
accumulator or is a scored member of the list, no listed score beats it,
and it is at least the starting accumulator's score. -/
theorem selectLoop_spec :
    ∀ (l : List Candidate) (acc) (s : Int × Int × ℕ) (b : Candidate),
      selectLoop l acc = some (s, b) →
      (acc = some (s, b) ∨ (b ∈ l ∧ candScore b = some s)) ∧
      (∀ c ∈ l, ∀ s', candScore c = some s' → scoreGt s' s = false) ∧
      (∀ s0 b0, acc = some (s0, b0) → scoreGt s0 s = false) := by
  intro l
  induction l with
  | nil =>
    intro acc s b h
    refine ⟨Or.inl h, fun c hc => absurd hc (List.not_mem_nil c), ?_⟩
    intro s0 b0 h0
    rw [h0] at h
    injection h with h
    injection h with h1 h2
    rw [h1]
    exact scoreGt_irrefl_aux s
  | cons f rest ih =>
    intro acc s b h
    rw [selectLoop] at h
    cases hf : candScore f with
    | none =>
      simp only [hf] at h
      obtain ⟨hA, hB, hC⟩ := ih acc s b h
      refine ⟨?_, ?_, hC⟩
      · rcases hA with hA | ⟨hb1, hb2⟩
        · exact Or.inl hA
        · exact Or.inr ⟨List.mem_cons_of_mem _ hb1, hb2⟩
      · intro c hc s' hs'
        rcases List.mem_cons.mp hc with rfl | hc2
        · rw [hf] at hs'; cases hs'
        · exact hB c hc2 s' hs'
    | some sf =>
      simp only [hf] at h
      cases acc with
      | none =>
        obtain ⟨hA, hB, hC⟩ := ih _ s b h
        have hsf : scoreGt sf s = false := hC sf f rfl
        refine ⟨?_, ?_, ?_⟩
        · rcases hA with hA | ⟨hb1, hb2⟩
          · injection hA with hA
            injection hA with h1 h2
            exact Or.inr ⟨by rw [← h2]; exact List.mem_cons_self _ _, by rw [← h2, hf, h1]⟩
          · exact Or.inr ⟨List.mem_cons_of_mem _ hb1, hb2⟩
        · intro c hc s' hs'
          rcases List.mem_cons.mp hc with rfl | hc2
          · rw [hf] at hs'
            injection hs' with hs'
            rw [← hs']
            exact hsf
          · exact hB c hc2 s' hs'
        · intro s0 b0 h0
          cases h0
      | some p =>
        obtain ⟨bs, bf⟩ := p
        cases hgt : scoreGt sf bs with
        | true =>
          simp only [hgt, if_true] at h
          obtain ⟨hA, hB, hC⟩ := ih _ s b h
          have hsf : scoreGt sf s = false := hC sf f rfl
          refine ⟨?_, ?_, ?_⟩
          · rcases hA with hA | ⟨hb1, hb2⟩
            · injection hA with hA
              injection hA with h1 h2
              exact Or.inr ⟨by rw [← h2]; exact List.mem_cons_self _ _,
                by rw [← h2, hf, h1]⟩
            · exact Or.inr ⟨List.mem_cons_of_mem _ hb1, hb2⟩
          · intro c hc s' hs'
            rcases List.mem_cons.mp hc with rfl | hc2
            · rw [hf] at hs'
              injection hs' with hs'
              rw [← hs']
              exact hsf
            · exact hB c hc2 s' hs'
          · intro s0 b0 h0
            injection h0 with h0
            injection h0 with h1 h2
            rw [← h1]
            exact scoreGt_false_trans (scoreGt_asymm hgt) hsf
        | false =>
          simp only [hgt, Bool.false_eq_true, if_false] at h
          obtain ⟨hA, hB, hC⟩ := ih _ s b h
          have hbs : scoreGt bs s = false := hC bs bf rfl
          refine ⟨?_, ?_, ?_⟩
          · rcases hA with hA | ⟨hb1, hb2⟩
            · exact Or.inl hA
            · exact Or.inr ⟨List.mem_cons_of_mem _ hb1, hb2⟩
          · intro c hc s' hs'
            rcases List.mem_cons.mp hc with rfl | hc2
            · rw [hf] at hs'
              injection hs' with hs'
              rw [← hs']
              exact scoreGt_false_trans hgt hbs
            · exact hB c hc2 s' hs'
          · intro s0 b0 h0
            injection h0 with h0
            injection h0 with h1 h2
            rw [← h1]
            exact hbs

/-- The unscorable single candidate of the C3 counterexample. -/
def badCandidate : Candidate := { path := 0, read := none }

/-- C3 counterexample: a single candidate that fails to read (or lacks a
date column) is not dropped — the `len == 1` shortcut returns it before
any read or scoring, contradicting the claim that such candidates never
survive selection. -/
theorem c3_counterexample_single_unscorable :
    select_best_file_by_date_range [badCandidate] = some badCandidate ∧
    candScore badCandidate = none :=
  ⟨rfl, rfl⟩

/-- C3 (amended).  With two or more candidate files the selector keeps a
candidate of lexicographically greatest (span, max date, row count) score
among the scorable ones and drops unreadable or date-less candidates
(returning nothing if none is scorable); a single candidate is returned
unconditionally without scoring.  In particular the 10-day/200-row file
beats the 3-day/500-row file. -/
theorem c3_best_file_selector (files : List Candidate) (h2 : 2 ≤ files.length) :
    (∀ b, select_best_file_by_date_range files = some b →
      b ∈ files ∧ ∃ s, candScore b = some s ∧
        ∀ c ∈ files, ∀ s', candScore c = some s' → scoreGt s' s = false) ∧
    (select_best_file_by_date_range files = none → ∀ c ∈ files, candScore c = none) ∧
    select_best_file_by_date_range
        [⟨0, some ⟨[0, 10], 200⟩⟩, ⟨1, some ⟨[5, 8], 500⟩⟩] =
      some ⟨0, some ⟨[0, 10], 200⟩⟩ := by
  obtain ⟨f1, tl, rfl⟩ : ∃ f1 tl, files = f1 :: tl := by
    cases files with
    | nil => simp at h2
    | cons a t => exact ⟨a, t, rfl⟩
  obtain ⟨f2, rest, rfl⟩ : ∃ f2 rest, tl = f2 :: rest := by
    cases tl with
    | nil => simp at h2
    | cons a t => exact ⟨a, t, rfl⟩
  have hsel : select_best_file_by_date_range (f1 :: f2 :: rest) =
      (selectLoop (f1 :: f2 :: rest) none).map (fun p => p.2) := rfl
  refine ⟨?_, ?_, by decide⟩
  · intro b hb
    rw [hsel] at hb
    cases hsl : selectLoop (f1 :: f2 :: rest) none with
    | none => rw [hsl] at hb; cases hb
    | some p =>
      obtain ⟨s, bf⟩ := p
      rw [hsl] at hb
      simp only [Option.map_some', Option.some.injEq] at hb
      subst hb
      obtain ⟨hA, hB, _⟩ := selectLoop_spec _ none s bf hsl
      rcases hA with hA | ⟨hb1, hb2⟩
      · cases hA
      · exact ⟨hb1, s, hb2, hB⟩
  · intro hnone
    rw [hsel] at hnone
    cases hsl : selectLoop (f1 :: f2 :: rest) none with
    | none => exact (selectLoop_eq_none _ none hsl).2
    | some p => rw [hsl] at hnone; cases hnone

/-- C3 witness: the two-candidate scenario, hypotheses discharged. -/
theorem c3_best_file_selector_witness :
    select_best_file_by_date_range
        [⟨0, some ⟨[0, 10], 200⟩⟩, ⟨1, some ⟨[5, 8], 500⟩⟩] =
      some ⟨0, some ⟨[0, 10], 200⟩⟩ :=
  (c3_best_file_selector [⟨0, some ⟨[0, 10], 200⟩⟩, ⟨1, some ⟨[5, 8], 500⟩⟩]
    (by decide)).2.2

/-! ## Claim C4: final aggregation key uniqueness -/

/-- C4.  After the final aggregation, (date, platform, agent id) is a
primary key: the output keys are pairwise distinct, the output row count
equals the number of distinct keys of the aggregation input, every input
key appears, and each output row carries the sums of its group's numeric
columns and the first non-null text value. -/
theorem c4_final_aggregation_key_uniqueness (rows : List MRow) :
    ((final_group_agg rows).map rowKey).Nodup ∧
    (final_group_agg rows).length = ((rows.map rowKey).dedup).length ∧
    (∀ r ∈ rows, rowKey r ∈ (final_group_agg rows).map rowKey) ∧
    (∀ g ∈ final_group_agg rows,
      g.amount = ((rows.filter (fun r => rowKey r == rowKey g)).map (fun r => r.amount)).sum ∧
      g.cnt = ((rows.filter (fun r => rowKey r == rowKey g)).map (fun r => r.cnt)).sum ∧
      g.text = safe_first ((rows.filter (fun r => rowKey r == rowKey g)).map (fun r => r.text))) := by
  have hkey : ∀ (k : ℕ × String × Int) (grp : List MRow), rowKey (aggGroup k grp) = k := by
    rintro ⟨k1, k2, k3⟩ grp
    rfl
  have hmap : (final_group_agg rows).map rowKey = (rows.map rowKey).dedup := by
    rw [final_group_agg, List.map_map]
    have hcong : ∀ k ∈ (rows.map rowKey).dedup,
        (rowKey ∘ fun k => aggGroup k (rows.filter (fun r => rowKey r == k))) k = id k :=
      fun k _ => hkey k _
    rw [List.map_congr_left hcong, List.map_id]
  refine ⟨?_, ?_, ?_, ?_⟩
  · rw [hmap]
    exact List.nodup_dedup _
  · rw [final_group_agg, List.length_map]
  · intro r hr
    rw [hmap]
    exact List.mem_dedup.mpr (List.mem_map_of_mem rowKey hr)
  · intro g hg
    rw [final_group_agg] at hg
    obtain ⟨k, hk, rfl⟩ := List.mem_map.mp hg
    rw [hkey]
    exact ⟨rfl, rfl, rfl⟩

/-- C4 witness: two rows sharing a key and one distinct row collapse to
two output rows with distinct keys. -/
theorem c4_final_aggregation_key_uniqueness_witness :
    ((final_group_agg
        [⟨30, "P", 5, 1, 2, some "a"⟩, ⟨30, "P", 5, 3, 4, none⟩,
         ⟨30, "Q", 6, 5, 6, none⟩]).map rowKey).Nodup ∧
    (final_group_agg
        [⟨30, "P", 5, 1, 2, some "a"⟩, ⟨30, "P", 5, 3, 4, none⟩,
         ⟨30, "Q", 6, 5, 6, none⟩]).length = 2 :=
  ⟨(c4_final_aggregation_key_uniqueness _).1,
    (c4_final_aggregation_key_uniqueness
      [⟨30, "P", 5, 1, 2, some "a"⟩, ⟨30, "P", 5, 3, 4, none⟩,
       ⟨30, "Q", 6, 5, 6, none⟩]).2.1.trans (by decide)⟩

/-! ## Claim C7: platform-level cost fill -/

/-- C7.  The platform-level cost pass keyed on (date, platform) only fills
cells the channel-level pass left null: non-null spend, impression, click
and withdrawal cells are preserved verbatim, null cells take the
platform-level value when the key matches (and stay null otherwise), and
all other columns as well as the keys are unchanged. -/
theorem c7_platform_cost_fill_only_nulls (raw : List PlatCostRow) (m : BroadcastRow) :
    (∀ v, m.cost.spend = some v →
      (fill_from_platform (cost_platform_dedup raw) m).cost.spend = some v) ∧
    (∀ v, m.cost.impressions = some v →
      (fill_from_platform (cost_platform_dedup raw) m).cost.impressions = some v) ∧
    (∀ v, m.cost.clicks = some v →
      (fill_from_platform (cost_platform_dedup raw) m).cost.clicks = some v) ∧
    (∀ v, m.cost.withdraw = some v →
      (fill_from_platform (cost_platform_dedup raw) m).cost.withdraw = some v) ∧
    ((fill_from_platform (cost_platform_dedup raw) m).date = m.date ∧
      (fill_from_platform (cost_platform_dedup raw) m).platform = m.platform ∧
      (fill_from_platform (cost_platform_dedup raw) m).otherCols = m.otherCols) ∧
    (∀ t, (cost_platform_dedup raw).find?
        (fun t => t.date == m.date && t.platform == m.platform) = some t →
      (m.cost.spend = none →
        (fill_from_platform (cost_platform_dedup raw) m).cost.spend = some t.spend) ∧
      (m.cost.impressions = none →
        (fill_from_platform (cost_platform_dedup raw) m).cost.impressions =
          some t.impressions) ∧
      (m.cost.clicks = none →
        (fill_from_platform (cost_platform_dedup raw) m).cost.clicks = some t.clicks) ∧
      (m.cost.withdraw = none →
        (fill_from_platform (cost_platform_dedup raw) m).cost.withdraw =
          some t.withdraw)) ∧
    ((cost_platform_dedup raw).find?
        (fun t => t.date == m.date && t.platform == m.platform) = none →
      fill_from_platform (cost_platform_dedup raw) m = m) := by
  cases hf : (cost_platform_dedup raw).find?
      (fun t => t.date == m.date && t.platform == m.platform) with
  | none =>
    have hfill : fill_from_platform (cost_platform_dedup raw) m = m := by
      rw [fill_from_platform, hf]
    refine ⟨?_, ?_, ?_, ?_, ?_, ?_, ?_⟩
    · intro v hv; rw [hfill]; exact hv
    · intro v hv; rw [hfill]; exact hv
    · intro v hv; rw [hfill]; exact hv
    · intro v hv; rw [hfill]; exact hv
    · rw [hfill]; exact ⟨rfl, rfl, rfl⟩
    · intro t ht; exact Option.noConfusion ht
    · intro _; exact hfill
  | some t0 =>
    have hfill : fill_from_platform (cost_platform_dedup raw) m =
        { m with cost :=
            { spend := m.cost.spend.orElse (fun _ => some t0.spend),
              impressions := m.cost.impressions.orElse (fun _ => some t0.impressions),
              clicks := m.cost.clicks.orElse (fun _ => some t0.clicks),
              withdraw := m.cost.withdraw.orElse (fun _ => some t0.withdraw) } } := by
      rw [fill_from_platform, hf]
    refine ⟨?_, ?_, ?_, ?_, ?_, ?_, ?_⟩
    · intro v hv; rw [hfill]; simp only [hv]; rfl
    · intro v hv; rw [hfill]; simp only [hv]; rfl
    · intro v hv; rw [hfill]; simp only [hv]; rfl
    · intro v hv; rw [hfill]; simp only [hv]; rfl
    · rw [hfill]; exact ⟨rfl, rfl, rfl⟩
    · intro t ht
      injection ht with htt
      subst htt
      refine ⟨?_, ?_, ?_, ?_⟩
      · intro hv; rw [hfill]; simp only [hv]; rfl
      · intro hv; rw [hfill]; simp only [hv]; rfl
      · intro hv; rw [hfill]; simp only [hv]; rfl
      · intro hv; rw [hfill]; simp only [hv]; rfl
    · intro h0; exact Option.noConfusion h0

/-- C7 witness: a non-null spend cell survives the platform fill and the
non-cost column is untouched. -/
theorem c7_platform_cost_fill_only_nulls_witness :
    (fill_from_platform (cost_platform_dedup [⟨1, "P", 5, 6, 7, 8⟩])
      ⟨1, "P", ⟨some 2, none, some 3, none⟩, "keep"⟩).cost.spend = some 2 ∧
    (fill_from_platform (cost_platform_dedup [⟨1, "P", 5, 6, 7, 8⟩])
      ⟨1, "P", ⟨some 2, none, some 3, none⟩, "keep"⟩).otherCols = "keep" :=
  ⟨(c7_platform_cost_fill_only_nulls [⟨1, "P", 5, 6, 7, 8⟩]
      ⟨1, "P", ⟨some 2, none, some 3, none⟩, "keep"⟩).1 2 rfl,
    (c7_platform_cost_fill_only_nulls [⟨1, "P", 5, 6, 7, 8⟩]
      ⟨1, "P", ⟨some 2, none, some 3, none⟩, "keep"⟩).2.2.2.2.1.2.2⟩

/-! ## Claim C2: standardizers facing missing key columns -/

/-- The C2 counterexample table: a non-empty frame with a channel column
and no date column. -/
def tblChannelNoDate : Table :=
  { header := ["渠道名称"], rows := [[("渠道名称", some "A8_BR_333(55)")]] }

/-- C2 counterexample: on a non-empty agent table with a channel column
but no resolvable date column, `std_agent` raises a `KeyError` (indexing
`df[None]`) instead of returning an empty standardized set. -/
theorem c2_counterexample_agent_missing_date_raises :
    std_agent tblChannelNoDate = Except.error "KeyError: None" ∧
    tblChannelNoDate.isEmptyDf = false ∧
    pick_col tblChannelNoDate aliases_date = none ∧
    pick_col tblChannelNoDate aliases_channel = some "渠道名称" := by
  refine ⟨rfl, rfl, ?_, ?_⟩ <;> decide

/-- C2 (amended).  The agent and ops standardizers return an empty set
(without raising) only when the channel column is missing; the retention
and cost standardizers return an empty set only when the date column is
missing; on a non-empty frame with no resolvable date column the agent,
ops (with a channel column present), first-pay-LTV, daily and platform
standardizers raise a `KeyError` instead. -/
theorem c2_standardizer_missing_key_columns :
    (∀ df : Table, pick_col df aliases_channel = none → std_agent df = Except.ok []) ∧
    (∀ df : Table, pick_col df aliases_channel = none → std_ops df = Except.ok []) ∧
    (∀ df : Table, pick_col df aliases_date = none → std_retention df = Except.ok []) ∧
    (∀ df : Table, pick_col df aliases_date = none → std_cost df = Except.ok []) ∧
    (∀ (df : Table) (c : String), df.isEmptyDf = false →
      pick_col df aliases_date = none → pick_col df aliases_channel = some c →
      std_agent df = Except.error "KeyError: None") ∧
    (∀ (df : Table) (c : String), pick_col df aliases_date = none →
      pick_col df aliases_channel = some c →
      std_ops df = Except.error "KeyError: None") ∧
    (∀ df : Table, df.isEmptyDf = false → pick_col df aliases_date = none →
      std_fpltv df = Except.error "KeyError: None") ∧
    (∀ df : Table, df.isEmptyDf = false → pick_col df aliases_date = none →
      std_daily df = Except.error "KeyError: None") ∧
    (∀ df : Table, df.isEmptyDf = false → pick_col df aliases_date = none →
      std_platform df = Except.error "KeyError: None") := by
  refine ⟨?_, ?_, ?_, ?_, ?_, ?_, ?_, ?_, ?_⟩
  · intro df hch
    rw [std_agent]
    split
    · rfl
    · simp only [hch]
  · intro df hch
    rw [std_ops]
    simp only [hch]
  · intro df hd
    rw [std_retention]
    split
    · rfl
    · simp only [hd]
  · intro df hd
    rw [std_cost]
    simp only [hd]
  · intro df c he hd hc
    rw [std_agent]
    simp only [he, Bool.false_eq_true, if_false, hd, hc]
  · intro df c hd hc
    rw [std_ops]
    simp only [hd, hc]
  · intro df he hd
    rw [std_fpltv]
    simp only [he, Bool.false_eq_true, if_false, hd]
  · intro df he hd
    rw [std_daily]
    simp only [he, Bool.false_eq_true, if_false, hd]
  · intro df he hd
    rw [std_platform]
    simp only [he, Bool.false_eq_true, if_false, hd]

/-- A table with a date column and no channel column (C2 witness input). -/
def tblNoChannel : Table :=
  { header := ["日期"], rows := [[("日期", some "2025-10-30")]] }

/-- C2 witness: the amended statement evaluated on concrete tables — the
agent standardizer recovers when the channel column is missing, the
retention standardizer recovers when the date column is missing, and the
first-pay-LTV standardizer raises on a missing date column. -/
theorem c2_standardizer_missing_key_columns_witness :
    std_agent tblNoChannel = Except.ok [] ∧
    std_retention tblChannelNoDate = Except.ok [] ∧
    std_fpltv tblChannelNoDate = Except.error "KeyError: None" :=
  ⟨c2_standardizer_missing_key_columns.1 tblNoChannel (by decide),
    c2_standardizer_missing_key_columns.2.2.1 tblChannelNoDate (by decide),
    c2_standardizer_missing_key_columns.2.2.2.2.2.2.1 tblChannelNoDate
      (by decide) (by decide)⟩
